import Mathlib

/-!
Verification development for the quantized attention-tensor decoder and the
inverse/forward attention query engine of this repository.

The JavaScript sources are shallowly embedded as executable Lean definitions:

* `shared/attentionDecode.js` : `normalizePrecision`, `toVariantKey`,
  `resolveAttentionVariant`, `loadRawFp32`, `loadInt8PerHead`,
  `nibbleToSigned`, `int4At`, `loadInt4Packed`.
* `interactive_invattention_js/src/inverseAttention.js` : `_buildPatchInfo`,
  `_getAttnFlat`, `getInverseAttention` of `InverseAttentionVisualizer`.
* `interactive_forwardattention_js/src/forwardAttention.js` :
  `getCameraPatchAttentionForQuery` of `ForwardAttentionVisualizer`.

Modelling conventions: JavaScript numbers are embedded as `ℚ` (the claims
under study are about indexing, lengths and control flow, which are exact);
typed arrays are `List ℚ`, `List ℤ` (int8 payloads) and `List ℕ` (packed
bytes); network fetch is modelled by passing the fetched payloads directly;
`throw` becomes `Except.error`. Array reads out of bounds use `List.getD`
with default 0.
-/

deriving instance DecidableEq for Except

/-- Shape `[b, h, q, k]` of the attention tensor as carried by
`attn_weights_shape` in the scene manifest. -/
structure Shape4 where
  b : ℕ
  h : ℕ
  qDim : ℕ
  kDim : ℕ
deriving Repr, DecidableEq

/-- One entry of `attn_variants` in the scene manifest (or the synthetic
legacy variant). Fields absent in the JSON are `none`. -/
structure Variant where
  file : Option String := none
  scale_file : Option String := none
  dtype : Option String := none
  encoding : Option String := none
deriving Repr, DecidableEq

/-- The `metadata` object of the scene manifest (only the field the resolver
reads). -/
structure Metadata where
  attn_precision_default : Option String := none
deriving Repr, DecidableEq

/-- The scene manifest fields consumed by `resolveAttentionVariant`.
`attn_variants` is an association list keyed by variant name, mirroring the
JSON object. -/
structure SceneJson where
  attn_variants : Option (List (String × Variant)) := none
  attn_weights_file : Option String := none
  metadata : Option Metadata := none
deriving Repr, DecidableEq

/-- Key lookup in the `attn_variants` JSON object. -/
def lookupVariant (vs : List (String × Variant)) (key : String) : Option Variant :=
  (vs.find? (fun p => p.1 = key)).map (fun p => p.2)

/-- Truthiness of an optional string in JavaScript: `undefined`, `null` and
the empty string are falsy. -/
def strFalsy (o : Option String) : Bool :=
  match o with
  | none => true
  | some s => s = ""

/-- Model of JavaScript `String.prototype.toLowerCase` on ASCII strings:
lowercase every character. -/
def strLower (s : String) : String := String.mk (s.data.map Char.toLower)

/-- Model of JavaScript `String.prototype.trim`: drop whitespace from both
ends. -/
def strTrim (s : String) : String :=
  String.mk (((s.data.dropWhile Char.isWhitespace).reverse.dropWhile
    Char.isWhitespace).reverse)

/-- The raw precision string after the `(value || "auto")`, `trim` and
`toLowerCase` steps of `normalizePrecision` in `attentionDecode.js`. -/
def rawPrecision (value : Option String) : String :=
  strLower (strTrim (match value with
   | none => "auto"
   | some s => if s = "" then "auto" else s))

/-- Embedding of `normalizePrecision` (`attentionDecode.js` lines 1-8). -/
def normalizePrecision (value : Option String) : String :=
  let raw := rawPrecision value
  if raw = "auto" then "auto"
  else if raw = "fp32" ∨ raw = "float32" then "fp32"
  else if raw = "int8" ∨ raw = "int8_phs_v1" then "int8"
  else if raw = "int4" ∨ raw = "int4_phq_v1" then "int4"
  else "auto"

/-- Embedding of `toVariantKey` (`attentionDecode.js` lines 10-26). The JS
reads `sceneJson?.attn_variants || {}`, modelled by `getD []`. -/
def toVariantKey (requested : String) (scene : SceneJson) : String :=
  if requested = "fp32" then "fp32"
  else if requested = "int8" then "int8_phs_v1"
  else if requested = "int4" then "int4_phq_v1"
  else
    let variants := scene.attn_variants.getD []
    let preferred := (scene.metadata.bind (fun m => m.attn_precision_default)).getD ""
    if preferred ≠ "" ∧ (lookupVariant variants preferred).isSome then preferred
    else if (lookupVariant variants "int4_phq_v1").isSome then "int4_phq_v1"
    else if (lookupVariant variants "int8_phs_v1").isSome then "int8_phs_v1"
    else if (lookupVariant variants "fp32").isSome then "fp32"
    else ""

/-- Result object of `resolveAttentionVariant`. -/
structure Resolution where
  key : String
  variant : Variant
  fallbackUsed : Bool
  requested : String
deriving Repr, DecidableEq

/-- Embedding of `buildLegacyFp32Variant` (`attentionDecode.js` lines 48-55). -/
def buildLegacyFp32Variant (scene : SceneJson) : Option Variant :=
  if strFalsy scene.attn_weights_file then none
  else scene.attn_weights_file.map (fun f =>
    { file := some f, dtype := some "float32", encoding := some "raw" })

/-- Body of `resolveAttentionVariant` (`attentionDecode.js` lines 57-112)
after the requested precision has been normalized. -/
def resolveAttentionVariantCore (scene : SceneJson) (requested : String) :
    Except String Resolution :=
  match scene.attn_variants with
  | none =>
    if requested = "int8" ∨ requested = "int4" then
      .error ("This scene does not provide " ++ requested ++ " attention variants.")
    else
      match buildLegacyFp32Variant scene with
      | none => .error "Scene manifest does not contain an attention binary reference."
      | some legacy => .ok ⟨"fp32", legacy, decide (requested ≠ "auto"), requested⟩
  | some variants =>
    let key := toVariantKey requested scene
    if key = "" then
      match buildLegacyFp32Variant scene with
      | none => .error "No usable attention variants found in scene manifest."
      | some legacy => .ok ⟨"fp32", legacy, decide (requested ≠ "auto"), requested⟩
    else
      match lookupVariant variants key with
      | none =>
        if requested = "int8" ∨ requested = "int4" then
          .error ("Requested " ++ requested ++ " attention variant is missing for this scene.")
        else
          match (lookupVariant variants "fp32").orElse (fun _ => buildLegacyFp32Variant scene) with
          | none => .error ("Requested attention variant " ++ key ++ " is unavailable.")
          | some fallback => .ok ⟨"fp32", fallback, true, requested⟩
      | some variant =>
        let fallbackUsed :=
          decide ((requested = "int8" ∧ key ≠ "int8_phs_v1")
            ∨ (requested = "int4" ∧ key ≠ "int4_phq_v1"))
        .ok ⟨key, variant, fallbackUsed, requested⟩

/-- Embedding of `resolveAttentionVariant` (`attentionDecode.js` lines
57-112): normalize the requested precision, then resolve. -/
def resolveAttentionVariant (scene : SceneJson) (urlPrecision : Option String) :
    Except String Resolution :=
  resolveAttentionVariantCore scene (normalizePrecision urlPrecision)

/-- Embedding of `prod` over the shape array (`attentionDecode.js` lines
36-38). -/
def prodShape (s : Shape4) : ℕ := s.b * s.h * s.qDim * s.kDim

/-- Embedding of `loadRawFp32` (`attentionDecode.js` lines 114-129). The
fetched binary is passed in as the list of float values it contains. -/
def loadRawFp32 (variant : Variant) (payload : List ℚ) (shape : Shape4) :
    Except String (List ℚ) :=
  if strFalsy variant.file then
    .error "Attention fp32 variant is missing file path."
  else
    let out := payload
    let expected := prodShape shape
    if out.length ≠ expected then
      .error "Attention fp32 size mismatch."
    else
      .ok out

/-- Embedding of `loadInt8PerHead` (`attentionDecode.js` lines 131-180). The
per-head dequantization loop (`out[base+i] = q[base+i] * scale`) is written
as a `flatMap` over heads of a `map` over the contiguous head slice. -/
def loadInt8PerHead (variant : Variant) (payload : List ℤ) (scales : List ℚ)
    (shape : Shape4) : Except String (List ℚ) :=
  if strFalsy variant.file ∨ strFalsy variant.scale_file then
    .error "Int8 attention variant requires file and scale_file."
  else if variant.encoding ≠ some "symmetric_per_head" then
    .error "Unsupported int8 encoding."
  else if shape.b ≠ 1 then
    .error "Only batch size 1 is supported."
  else
    let expectedValues := shape.b * shape.h * shape.qDim * shape.kDim
    if payload.length ≠ expectedValues then
      .error "Int8 attention size mismatch."
    else if scales.length ≠ shape.h then
      .error "Int8 scales size mismatch."
    else
      let headStride := shape.qDim * shape.kDim
      .ok ((List.range shape.h).flatMap (fun head =>
        (List.range headStride).map (fun i =>
          ((payload.getD (head * headStride + i) 0 : ℤ) : ℚ) * scales.getD head 0)))

/-- Embedding of `nibbleToSigned` (`attentionDecode.js` lines 182-184). -/
def nibbleToSigned (value : ℕ) : ℤ :=
  if value &&& 8 ≠ 0 then (value : ℤ) - 16 else (value : ℤ)

/-- Embedding of `int4At` (`attentionDecode.js` lines 186-192). -/
def int4At (packed : List ℕ) (index : ℕ) : ℤ :=
  let byte := packed.getD (index >>> 1) 0
  if index &&& 1 = 0 then nibbleToSigned (byte &&& 0x0f)
  else nibbleToSigned ((byte >>> 4) &&& 0x0f)

/-- Embedding of `loadInt4Packed` (`attentionDecode.js` lines 194-243). The
triple loop over head, query and key is written as nested `flatMap`/`map`.
`Math.ceil(v / 2)` on a natural number is `(v + 1) / 2`. -/
def loadInt4Packed (variant : Variant) (packed : List ℕ) (scales : List ℚ)
    (shape : Shape4) : Except String (List ℚ) :=
  if strFalsy variant.file ∨ strFalsy variant.scale_file then
    .error "Int4 attention variant requires file and scale_file."
  else if shape.b ≠ 1 then
    .error "Only batch size 1 is supported."
  else
    let expectedValues := shape.b * shape.h * shape.qDim * shape.kDim
    let expectedPacked := (expectedValues + 1) / 2
    if packed.length ≠ expectedPacked then
      .error "Int4 packed size mismatch."
    else if scales.length ≠ shape.h * shape.qDim then
      .error "Int4 scales size mismatch."
    else
      .ok ((List.range shape.h).flatMap (fun head =>
        (List.range shape.qDim).flatMap (fun q =>
          (List.range shape.kDim).map (fun k =>
            ((int4At packed ((head * shape.qDim + q) * shape.kDim + k) : ℤ) : ℚ)
              * scales.getD (head * shape.qDim + q) 0))))

/-! Token layout builder (`_buildPatchInfo` in `inverseAttention.js` lines
282-351 and `forwardAttention.js` lines 95-163; the two copies are
identical up to image-dimension extraction glue). A camera input carries the
pixel dimensions already extracted from the patch-aligned and original
image objects. -/

/-- One camera as seen by `_buildPatchInfo`: name, original position in the
manifest arrays, and the pixel dimensions of the patch-aligned and
full-resolution images. -/
structure CamInput where
  name : String
  idx : ℕ
  imgH : ℕ
  imgW : ℕ
  origH : ℕ
  origW : ℕ
deriving Repr, DecidableEq

/-- Embedding of the `PatchInfo` record (`inverseAttention.js` lines
205-218). -/
structure PatchInfo where
  camName : String
  camIdx : ℕ
  startIdx : ℕ
  nPatches : ℕ
  patchH : ℕ
  patchW : ℕ
  imgH : ℕ
  imgW : ℕ
  hScale : ℚ
  wScale : ℚ
deriving Repr, DecidableEq

/-- Primary collation key of a string under the CLDR root collation used by
`String.prototype.localeCompare` in JavaScript engines, restricted to ASCII:
the sequence of case-folded code points. -/
def lcPrimaryKey (s : String) : List ℕ :=
  s.data.map (fun c => (Char.toLower c).val.toNat)

/-- ASCII case swap, used to express the lowercase-before-uppercase tertiary
tiebreak of the root collation as an ordinary code-point comparison. -/
def swapCaseChar (c : Char) : Char :=
  if c.isLower then c.toUpper else if c.isUpper then c.toLower else c

/-- Tertiary collation key: code points with the case of every ASCII letter
flipped, so that a lowercase letter compares below its uppercase form. -/
def lcTertiaryKey (s : String) : List ℕ :=
  s.data.map (fun c => ((swapCaseChar c).val.toNat))

/-- Model of the comparator `(a, b) => a.localeCompare(b) <= 0` on ASCII
strings: `String.prototype.localeCompare` under the default CLDR root
collation compares case-insensitively first (primary strength) and breaks
ties with lowercase before uppercase (tertiary strength). Note this is NOT
the code-point (byte) order: the root collation puts "a" before "B". -/
def jsLCle (a b : String) : Prop :=
  lcPrimaryKey a < lcPrimaryKey b
    ∨ (lcPrimaryKey a = lcPrimaryKey b ∧ lcTertiaryKey a ≤ lcTertiaryKey b)

instance : DecidableRel jsLCle := fun a b => by
  unfold jsLCle; infer_instance

/-- Comparator on camera records used by
`.sort((a, b) => a.name.localeCompare(b.name))`. -/
def camLe (a b : CamInput) : Prop := jsLCle a.name b.name

instance : DecidableRel camLe := fun a b => by
  unfold camLe; infer_instance

/-- The camera sort of `_buildPatchInfo`: ascending by name under the
localeCompare comparator. -/
def sortCameras (cams : List CamInput) : List CamInput :=
  cams.insertionSort camLe

/-- The loop body plus cursor threading of `_buildPatchInfo`
(`inverseAttention.js` lines 294-348): walk the sorted cameras, skip one CLS
slot per camera when `hasCls`, record each camera's `startIdx` and advance
by `nPatches`. Returns the built records and the final cursor. -/
def buildPatchInfoGo (patchSize : ℕ) (hasCls : Bool) :
    ℕ → List CamInput → List PatchInfo × ℕ
  | cursor, [] => ([], cursor)
  | cursor, c :: rest =>
    let patchH := c.imgH / patchSize
    let patchW := c.imgW / patchSize
    let nPatches := patchH * patchW
    let hScale : ℚ := (c.origH : ℚ) / (c.imgH : ℚ)
    let wScale : ℚ := (c.origW : ℚ) / (c.imgW : ℚ)
    let start := cursor + (if hasCls then 1 else 0)
    let info : PatchInfo :=
      ⟨c.name, c.idx, start, nPatches, patchH, patchW, c.imgH, c.imgW, hScale, wScale⟩
    let next := buildPatchInfoGo patchSize hasCls (start + nPatches) rest
    (info :: next.1, next.2)

/-- Embedding of `_buildPatchInfo`: sort the cameras by name with the
localeCompare comparator, then walk them building `PatchInfo` records from a
token cursor starting at 0. The second component is the final cursor, i.e.
the total number of key-token indices consumed. -/
def buildPatchInfo (cams : List CamInput) (patchSize : ℕ) (hasCls : Bool) :
    List PatchInfo × ℕ :=
  buildPatchInfoGo patchSize hasCls 0 (sortCameras cams)

/-! Attention query engine. `_getAttnFlat` is defined identically in
`inverseAttention.js` (lines 569-576) and `forwardAttention.js` (lines
165-173); it is embedded once. -/

/-- Embedding of `_getAttnFlat`: flat row-major read of the `[1,H,Q,K]`
tensor at `[b, h, q, k]`, with out-of-range reads giving 0. -/
def getAttnFlat (flat : List ℚ) (shape : Shape4) (b h q k : ℕ) : ℚ :=
  flat.getD
    (b * (shape.h * shape.qDim * shape.kDim)
      + h * (shape.qDim * shape.kDim) + q * shape.kDim + k) 0

/-- The head-mean of the attention from query `q` to key token `kIdx`: the
`sum += ...; sum / H` accumulation shared by both query directions. -/
def headMeanAt (flat : List ℚ) (shape : Shape4) (q kIdx : ℕ) : ℚ :=
  ((List.range shape.h).foldl (fun s hh => s + getAttnFlat flat shape 0 hh q kIdx) 0)
    / (shape.h : ℚ)

/-- JavaScript `Math.max(...l)` on a non-empty list; the empty spread yields
negative infinity, which has no counterpart in `ℚ` — no claim under study
depends on that value, and the modelled result for the empty list is 0. -/
def jsMaxSpread (l : List ℚ) : ℚ :=
  match l with
  | [] => 0
  | x :: xs => xs.foldl max x

/-- Embedding of `InverseAttentionVisualizer.getInverseAttention`
(`inverseAttention.js` lines 469-563), flat-array path: build the per-query
list of attention values at the selected key indices (head-mean or a single
head), aggregate each row by the requested policy, and reshape into the
`gridSize × gridSize` BEV map. -/
def getInverseAttention (flat : List ℚ) (shape : Shape4) (gridSize : ℕ)
    (patchIndices : List ℕ) (meanHeads : Bool) (headIdx : Option ℕ)
    (aggregation : String) : Except String (List (List ℚ)) :=
  let nQueries := gridSize * gridSize
  let patchAttnE : Except String (List (List ℚ)) :=
    if meanHeads then
      .ok ((List.range nQueries).map (fun q =>
        patchIndices.map (fun kIdx => headMeanAt flat shape q kIdx)))
    else
      match headIdx with
      | some hIdx =>
        .ok ((List.range nQueries).map (fun q =>
          patchIndices.map (fun kIdx => getAttnFlat flat shape 0 hIdx q kIdx)))
      | none => .error "Specify headIdx or set meanHeads=true"
  match patchAttnE with
  | .error e => .error e
  | .ok patchAttn =>
    let bevAttnE : Except String (List ℚ) :=
      if aggregation = "sum" then
        .ok (patchAttn.map (fun qAttn => qAttn.foldl (fun s v => s + v) 0))
      else if aggregation = "max" then
        .ok (patchAttn.map jsMaxSpread)
      else if aggregation = "mean" then
        .ok (patchAttn.map (fun qAttn =>
          (qAttn.foldl (fun s v => s + v) 0) / (qAttn.length : ℚ)))
      else .error ("Unknown aggregation: " ++ aggregation)
    match bevAttnE with
    | .error e => .error e
    | .ok bevAttn =>
      .ok ((List.range gridSize).map (fun y =>
        (List.range gridSize).map (fun x => bevAttn.getD (y * gridSize + x) 0)))

/-- Embedding of `ForwardAttentionVisualizer.getCameraPatchAttentionForQuery`
(`forwardAttention.js` lines 185-232), flat-array path, for a resolved
camera record. The source raises the head-selection error inside the patch
loop, so the error is only reachable when the camera has at least one
patch. -/
def getCameraPatchAttentionForQuery (flat : List ℚ) (shape : Shape4)
    (queryIdx : ℕ) (info : PatchInfo) (meanHeads : Bool) (headIdx : Option ℕ) :
    Except String (List ℚ) :=
  if meanHeads then
    .ok ((List.range info.nPatches).map (fun i =>
      headMeanAt flat shape queryIdx (info.startIdx + i)))
  else
    match headIdx with
    | some hIdx =>
      .ok ((List.range info.nPatches).map (fun i =>
        getAttnFlat flat shape 0 hIdx queryIdx (info.startIdx + i)))
    | none =>
      if info.nPatches = 0 then .ok []
      else .error "Specify headIdx or set meanHeads=true"

/-- Code-unit (byte) order on strings: the ordering the specification says
the camera sort uses. This definition follows the words of the spec, for
comparison against the embedded sort. -/
def byteOrderLe (a b : String) : Prop :=
  (a.data.map (fun c => c.val.toNat)) ≤ (b.data.map (fun c => c.val.toNat))

instance : DecidableRel byteOrderLe := fun a b => by
  unfold byteOrderLe; infer_instance

/-! Properties of the localeCompare comparator model and the token layout
builder. -/

/-- The localeCompare order is total. -/
theorem jsLCle_total (a b : String) : jsLCle a b ∨ jsLCle b a := by
  rcases lt_trichotomy (lcPrimaryKey a) (lcPrimaryKey b) with h | h | h
  · exact Or.inl (Or.inl h)
  · rcases le_total (lcTertiaryKey a) (lcTertiaryKey b) with h2 | h2
    · exact Or.inl (Or.inr ⟨h, h2⟩)
    · exact Or.inr (Or.inr ⟨h.symm, h2⟩)
  · exact Or.inr (Or.inl h)

/-- The localeCompare order is transitive. -/
theorem jsLCle_trans (a b c : String) (h1 : jsLCle a b) (h2 : jsLCle b c) :
    jsLCle a c := by
  rcases h1 with h1 | ⟨h1e, h1t⟩
  · rcases h2 with h2 | ⟨h2e, h2t⟩
    · exact Or.inl (lt_trans h1 h2)
    · exact Or.inl (h2e ▸ h1)
  · rcases h2 with h2 | ⟨h2e, h2t⟩
    · exact Or.inl (h1e ▸ h2)
    · exact Or.inr ⟨h1e.trans h2e, le_trans h1t h2t⟩

instance : IsTotal CamInput camLe :=
  ⟨fun a b => jsLCle_total a.name b.name⟩

instance : IsTrans CamInput camLe :=
  ⟨fun a b c => jsLCle_trans a.name b.name c.name⟩

/-- The built records carry the camera names of the input list, in order. -/
theorem buildPatchInfoGo_names (ps : ℕ) (cls : Bool) :
    ∀ (cams : List CamInput) (cursor : ℕ),
      ((buildPatchInfoGo ps cls cursor cams).1).map (fun x => x.camName)
        = cams.map (fun c => c.name) := by
  intro cams
  induction cams with
  | nil => intro cursor; rfl
  | cons c rest ih =>
    intro cursor
    simp only [buildPatchInfoGo, List.map_cons]
    rw [ih]

/-- Structural invariants of the cursor walk of `_buildPatchInfo`: every
record starts at or after the cursor plus the CLS skip, consecutive records
are contiguous (one CLS slot apart when `hasCls`), the final cursor is the
starting cursor plus all patches plus one CLS slot per camera, and the
half-open ranges `[startIdx, startIdx + nPatches)` are pairwise ordered and
disjoint. -/
theorem buildPatchInfoGo_spec (ps : ℕ) (cls : Bool) :
    ∀ (cams : List CamInput) (cursor : ℕ),
      (∀ x ∈ (buildPatchInfoGo ps cls cursor cams).1,
        cursor + (if cls then 1 else 0) ≤ x.startIdx)
      ∧ List.Chain' (fun a b => b.startIdx = a.startIdx + a.nPatches + (if cls then 1 else 0))
          (buildPatchInfoGo ps cls cursor cams).1
      ∧ (buildPatchInfoGo ps cls cursor cams).2
          = cursor + (((buildPatchInfoGo ps cls cursor cams).1).map (fun x => x.nPatches)).sum
            + (if cls then cams.length else 0)
      ∧ List.Pairwise (fun a b => a.startIdx + a.nPatches ≤ b.startIdx)
          (buildPatchInfoGo ps cls cursor cams).1 := by
  intro cams
  induction cams with
  | nil =>
    intro cursor
    exact ⟨by simp [buildPatchInfoGo], by simp [buildPatchInfoGo],
      by simp [buildPatchInfoGo], by simp [buildPatchInfoGo]⟩
  | cons c rest ih =>
    intro cursor
    obtain ⟨ihlb, ihch, ihfin, ihpw⟩ :=
      ih (cursor + (if cls then 1 else 0) + c.imgH / ps * (c.imgW / ps))
    refine ⟨?_, ?_, ?_, ?_⟩
    · intro x hx
      simp only [buildPatchInfoGo, List.mem_cons] at hx
      rcases hx with hx | hx
      · subst hx
        dsimp only
        omega
      · have hlb := ihlb x hx
        omega
    · cases rest with
      | nil =>
        simp [buildPatchInfoGo]
      | cons c2 rest2 =>
        simp only [buildPatchInfoGo] at ihch ⊢
        rw [List.chain'_cons]
        refine ⟨?_, ihch⟩
        dsimp only
    · simp only [buildPatchInfoGo, List.map_cons, List.sum_cons]
      rw [ihfin]
      cases cls <;> simp <;> omega
    · simp only [buildPatchInfoGo]
      rw [List.pairwise_cons]
      refine ⟨?_, ihpw⟩
      intro b hb
      have hlb := ihlb b hb
      dsimp only
      omega

/-- C7. For every camera list, patch size and CLS flag, the built ranges
`[startIdx, startIdx + nPatches)` are pairwise non-overlapping, consecutive
records are contiguous with exactly one CLS slot skipped before each camera
when `hasCls`, and the total number of token indices consumed equals
`sum(nPatches) + (numCameras if hasCls else 0)`. -/
theorem C7_token_layout_contiguity :
    ∀ (cams : List CamInput) (ps : ℕ) (cls : Bool),
      List.Pairwise (fun a b =>
          a.startIdx + a.nPatches ≤ b.startIdx ∨ b.startIdx + b.nPatches ≤ a.startIdx)
        (buildPatchInfo cams ps cls).1
      ∧ List.Chain' (fun a b =>
          b.startIdx = a.startIdx + a.nPatches + (if cls then 1 else 0))
        (buildPatchInfo cams ps cls).1
      ∧ ((buildPatchInfo cams ps cls).1).length = cams.length
      ∧ (buildPatchInfo cams ps cls).2
        = (((buildPatchInfo cams ps cls).1).map (fun x => x.nPatches)).sum
          + (if cls then cams.length else 0) := by
  intro cams ps cls
  obtain ⟨hlb, hch, hfin, hpw⟩ := buildPatchInfoGo_spec ps cls (sortCameras cams) 0
  have hsortlen : (sortCameras cams).length = cams.length :=
    (List.perm_insertionSort camLe cams).length_eq
  have hlen : ((buildPatchInfoGo ps cls 0 (sortCameras cams)).1).length = cams.length := by
    have h1 := congrArg List.length (buildPatchInfoGo_names ps cls (sortCameras cams) 0)
    simp only [List.length_map] at h1
    rw [h1, hsortlen]
  refine ⟨hpw.imp (fun h => Or.inl h), hch, hlen, ?_⟩
  unfold buildPatchInfo
  rw [hfin, hsortlen, Nat.zero_add]

/-- C6 (amended). The token layout builder orders cameras ascending by name
under the localeCompare collation (case-insensitive primary comparison with
lowercase-first tiebreak), not raw code-unit order: the built records carry
the input camera names sorted by that collation, independent of the order
in which the cameras were supplied. -/
theorem C6_camera_order_amended :
    ∀ (cams : List CamInput) (ps : ℕ) (cls : Bool),
      List.Sorted jsLCle (((buildPatchInfo cams ps cls).1).map (fun x => x.camName))
      ∧ List.Perm (((buildPatchInfo cams ps cls).1).map (fun x => x.camName))
          (cams.map (fun c => c.name)) := by
  intro cams ps cls
  have hnames := buildPatchInfoGo_names ps cls (sortCameras cams) 0
  constructor
  · unfold buildPatchInfo
    rw [hnames]
    have hsorted : List.Sorted camLe (sortCameras cams) :=
      List.sorted_insertionSort camLe cams
    exact List.pairwise_map.mpr hsorted
  · unfold buildPatchInfo
    rw [hnames]
    exact (List.perm_insertionSort camLe cams).map (fun c => c.name)

/-- C6 counterexample: for cameras named `B` and `a`, the builder puts `a`
first (localeCompare collation), but case-sensitive byte order demands `B`
first — the produced name sequence is not sorted by byte order. -/
theorem C6_counterexample :
    ((buildPatchInfo [⟨"B", 0, 14, 14, 14, 14⟩, ⟨"a", 1, 14, 14, 14, 14⟩] 14 false).1.map
        (fun x => x.camName)) = ["a", "B"]
    ∧ ¬ byteOrderLe "a" "B"
    ∧ ¬ List.Sorted byteOrderLe
        ((buildPatchInfo [⟨"B", 0, 14, 14, 14, 14⟩, ⟨"a", 1, 14, 14, 14, 14⟩] 14 false).1.map
          (fun x => x.camName)) := by
  have h1 : ((buildPatchInfo [⟨"B", 0, 14, 14, 14, 14⟩, ⟨"a", 1, 14, 14, 14, 14⟩] 14
      false).1.map (fun x => x.camName)) = ["a", "B"] := by decide
  refine ⟨h1, by decide, ?_⟩
  rw [h1]
  intro hs
  exact absurd (List.rel_of_sorted_cons hs "B" (by simp)) (by decide)

/-! Helper lemmas about flattened loop structures. -/

theorem flatMap_range_map {α : Type} (n m : ℕ) (f : ℕ → α) :
    (List.range n).flatMap (fun a => (List.range m).map (fun b => f (a * m + b)))
      = (List.range (n * m)).map f := by
  induction n with
  | zero => simp
  | succ n ih =>
    rw [List.range_succ, List.flatMap_append, ih, Nat.succ_mul, List.range_add,
      List.map_append]
    simp [List.map_map, Function.comp]

theorem flatMap_congr_mem {α β : Type} (l : List α) (f g : α → List β)
    (h : ∀ a ∈ l, f a = g a) : l.flatMap f = l.flatMap g := by
  induction l with
  | nil => simp
  | cons a l ih =>
    simp only [List.flatMap_cons]
    rw [h a (List.mem_cons_self a l), ih (fun x hx => h x (List.mem_cons_of_mem a hx))]

theorem getD_map_range {α : Type} (N : ℕ) (f : ℕ → α) (i : ℕ) (d : α) (h : i < N) :
    ((List.range N).map f).getD i d = f i := by
  have hlen : i < ((List.range N).map f).length := by simpa using h
  rw [List.getD_eq_getElem _ _ hlen]
  simp

theorem length_flatMap_const {α β : Type} (l : List α) (f : α → List β) (m : ℕ)
    (h : ∀ a ∈ l, (f a).length = m) : (l.flatMap f).length = l.length * m := by
  induction l with
  | nil => simp
  | cons a l ih =>
    simp only [List.flatMap_cons, List.length_append, List.length_cons]
    rw [h a (List.mem_cons_self a l), ih (fun x hx => h x (List.mem_cons_of_mem a hx))]
    ring

/-- The nested head/query/key loop of `loadInt4Packed` produces the same list
as a single linear pass over the flat index, with scale index `i / K`. -/
theorem int4_out_eq (packed : List ℕ) (scales : List ℚ) (h qd kd : ℕ) :
    (List.range h).flatMap (fun head =>
      (List.range qd).flatMap (fun q =>
        (List.range kd).map (fun k =>
          ((int4At packed ((head * qd + q) * kd + k) : ℤ) : ℚ)
            * scales.getD (head * qd + q) 0)))
    = (List.range (h * (qd * kd))).map (fun i =>
        ((int4At packed i : ℤ) : ℚ) * scales.getD (i / kd) 0) := by
  rw [← flatMap_range_map h (qd * kd) (fun i =>
    ((int4At packed i : ℤ) : ℚ) * scales.getD (i / kd) 0)]
  apply flatMap_congr_mem
  intro head _
  rw [← flatMap_range_map qd kd (fun b =>
    ((int4At packed (head * (qd * kd) + b) : ℤ) : ℚ)
      * scales.getD ((head * (qd * kd) + b) / kd) 0)]
  apply flatMap_congr_mem
  intro q hq
  apply List.map_congr_left
  intro k hk
  have hkmem : k < kd := List.mem_range.mp hk
  have hkd0 : 0 < kd := Nat.pos_of_ne_zero (by omega)
  have h1 : head * (qd * kd) + (q * kd + k) = (head * qd + q) * kd + k := by ring
  have h2 : (head * (qd * kd) + (q * kd + k)) / kd = head * qd + q := by
    have h3 : head * (qd * kd) + (q * kd + k) = kd * (head * qd + q) + k := by ring
    rw [h3, Nat.mul_add_div hkd0, Nat.div_eq_of_lt hkmem, Nat.add_zero]
  rw [h1] at h2
  rw [h1, h2]

/-- Rewriting of the per-(head,query) scale index `head(i)*Q + query(i)` into
the linear form `i / K` used by the flattened pass. -/
theorem scale_index_eq (i qd kd : ℕ) :
    (i / (qd * kd)) * qd + (i / kd) % qd = i / kd := by
  have h1 : i / (qd * kd) = (i / kd) / qd := by
    rw [Nat.div_div_eq_div_mul, mul_comm kd qd]
  rw [h1, mul_comm (i / kd / qd) qd]
  exact Nat.div_add_mod (i / kd) qd

/-- Signed 4-bit values lie in `[-8, 7]`. -/
theorem nibble_range : ∀ v : ℕ, v < 16 → -8 ≤ nibbleToSigned v ∧ nibbleToSigned v ≤ 7 := by
  decide

/-- Successful int4 decode characterization: every check passed and the
output is the nested dequantization loop. -/
theorem loadInt4Packed_ok_elim (variant : Variant) (packed : List ℕ)
    (scales : List ℚ) (b h qd kd : ℕ) (out : List ℚ)
    (hok : loadInt4Packed variant packed scales ⟨b, h, qd, kd⟩ = .ok out) :
    b = 1
    ∧ packed.length = (b * h * qd * kd + 1) / 2
    ∧ scales.length = h * qd
    ∧ out = (List.range h).flatMap (fun head =>
        (List.range qd).flatMap (fun q =>
          (List.range kd).map (fun k =>
            ((int4At packed ((head * qd + q) * kd + k) : ℤ) : ℚ)
              * scales.getD (head * qd + q) 0))) := by
  unfold loadInt4Packed at hok
  dsimp only at hok
  split_ifs at hok with h1 h2 h3 h4
  simp only [Except.ok.injEq] at hok
  simp only [ne_eq, not_not] at h2 h3 h4
  exact ⟨by simpa using h2, h3, h4, hok.symm⟩

/-- C1. For the int4 variant, the decoder reconstructs every element `i` of
the `H*Q*K`-element output as `signed_nibble(i) * scale[head(i)*Q + query(i)]`
with `head(i) = i / (Q*K)` and `query(i) = (i / K) % Q`; the nibble is taken
from packed byte `i >>> 1`, low 4 bits for even `i` and high 4 bits for odd
`i`; every nibble decodes by twos-complement (`n ≥ 8` maps to `n - 16`)
into the signed range `[-8, 7]`; and byte `0x1F` decodes to low = -1,
high = 1. -/
theorem C1_int4_dequant_law :
    (∀ (variant : Variant) (packed : List ℕ) (scales : List ℚ) (shape : Shape4)
      (out : List ℚ) (i : ℕ),
      loadInt4Packed variant packed scales shape = .ok out →
      i < shape.h * shape.qDim * shape.kDim →
      out.getD i 0 = ((int4At packed i : ℤ) : ℚ)
        * scales.getD ((i / (shape.qDim * shape.kDim)) * shape.qDim
            + (i / shape.kDim) % shape.qDim) 0)
    ∧ (∀ (packed : List ℕ) (i : ℕ),
      int4At packed i = if i % 2 = 0 then nibbleToSigned ((packed.getD (i / 2) 0) &&& 15)
        else nibbleToSigned (((packed.getD (i / 2) 0) >>> 4) &&& 15))
    ∧ (∀ n : ℕ, n < 16 → nibbleToSigned n = if 8 ≤ n then (n : ℤ) - 16 else (n : ℤ))
    ∧ (∀ b : ℕ, (-8 ≤ int4At [b] 0 ∧ int4At [b] 0 ≤ 7)
        ∧ (-8 ≤ int4At [b] 1 ∧ int4At [b] 1 ≤ 7))
    ∧ int4At [0x1f] 0 = -1 ∧ int4At [0x1f] 1 = 1 := by
  refine ⟨?_, ?_, ?_, ?_, by decide, by decide⟩
  · intro variant packed scales shape out i hok hi
    obtain ⟨b, h, qd, kd⟩ := shape
    obtain ⟨hb, hpl, hsl, hout⟩ := loadInt4Packed_ok_elim variant packed scales b h qd kd out hok
    subst hout
    rw [int4_out_eq packed scales h qd kd,
      getD_map_range (h * (qd * kd)) _ i 0 (by simpa [Nat.mul_assoc] using hi)]
    simp only
    rw [scale_index_eq]
  · intro packed i
    unfold int4At
    rw [Nat.shiftRight_one, Nat.and_one_is_mod]
  · decide
  · intro b
    have hb0 : b &&& 15 < 16 := Nat.lt_succ_of_le Nat.and_le_right
    have hb1 : (b >>> 4) &&& 15 < 16 := Nat.lt_succ_of_le Nat.and_le_right
    constructor
    · have : int4At [b] 0 = nibbleToSigned (b &&& 15) := by
        simp [int4At]
      rw [this]
      exact nibble_range _ hb0
    · have : int4At [b] 1 = nibbleToSigned ((b >>> 4) &&& 15) := by
        simp [int4At]
      rw [this]
      exact nibble_range _ hb1

/-- Successful fp32 decode characterization. -/
theorem loadRawFp32_ok_elim (variant : Variant) (payload : List ℚ) (shape : Shape4)
    (out : List ℚ) (hok : loadRawFp32 variant payload shape = .ok out) :
    out = payload ∧ payload.length = prodShape shape := by
  unfold loadRawFp32 at hok
  dsimp only at hok
  split_ifs at hok with h1 h2
  simp only [Except.ok.injEq] at hok
  simp only [ne_eq, not_not] at h2
  exact ⟨hok.symm, h2⟩

/-- Successful int8 decode characterization: every check passed and the
output is the per-head dequantization loop. -/
theorem loadInt8PerHead_ok_elim (variant : Variant) (payload : List ℤ)
    (scales : List ℚ) (b h qd kd : ℕ) (out : List ℚ)
    (hok : loadInt8PerHead variant payload scales ⟨b, h, qd, kd⟩ = .ok out) :
    b = 1
    ∧ payload.length = b * h * qd * kd
    ∧ scales.length = h
    ∧ out = (List.range h).flatMap (fun head =>
        (List.range (qd * kd)).map (fun i =>
          ((payload.getD (head * (qd * kd) + i) 0 : ℤ) : ℚ) * scales.getD head 0)) := by
  unfold loadInt8PerHead at hok
  dsimp only at hok
  split_ifs at hok with h1 h2 h3 h4 h5
  simp only [Except.ok.injEq] at hok
  simp only [ne_eq, not_not] at h3 h4 h5
  exact ⟨by simpa using h3, h4, h5, hok.symm⟩

/-- C2. For every encoding a successful decode returns a buffer of length
exactly `H*Q*K`, and a payload or scale array whose length differs from the
exact value implied by the shape and encoding makes the decoder raise. -/
theorem C2_shape_invariant :
    (∀ (variant : Variant) (payload : List ℚ) (h q k : ℕ) (out : List ℚ),
      loadRawFp32 variant payload ⟨1, h, q, k⟩ = .ok out → out.length = h * q * k)
    ∧ (∀ (variant : Variant) (payload : List ℚ) (h q k : ℕ),
      payload.length ≠ h * q * k →
      ∃ e, loadRawFp32 variant payload ⟨1, h, q, k⟩ = .error e)
    ∧ (∀ (variant : Variant) (payload : List ℤ) (scales : List ℚ) (h q k : ℕ)
        (out : List ℚ),
      loadInt8PerHead variant payload scales ⟨1, h, q, k⟩ = .ok out →
      out.length = h * q * k)
    ∧ (∀ (variant : Variant) (payload : List ℤ) (scales : List ℚ) (h q k : ℕ),
      payload.length ≠ h * q * k →
      ∃ e, loadInt8PerHead variant payload scales ⟨1, h, q, k⟩ = .error e)
    ∧ (∀ (variant : Variant) (payload : List ℤ) (scales : List ℚ) (h q k : ℕ),
      scales.length ≠ h →
      ∃ e, loadInt8PerHead variant payload scales ⟨1, h, q, k⟩ = .error e)
    ∧ (∀ (variant : Variant) (packed : List ℕ) (scales : List ℚ) (h q k : ℕ)
        (out : List ℚ),
      loadInt4Packed variant packed scales ⟨1, h, q, k⟩ = .ok out →
      out.length = h * q * k)
    ∧ (∀ (variant : Variant) (packed : List ℕ) (scales : List ℚ) (h q k : ℕ),
      packed.length ≠ (h * q * k + 1) / 2 →
      ∃ e, loadInt4Packed variant packed scales ⟨1, h, q, k⟩ = .error e)
    ∧ (∀ (variant : Variant) (packed : List ℕ) (scales : List ℚ) (h q k : ℕ),
      scales.length ≠ h * q →
      ∃ e, loadInt4Packed variant packed scales ⟨1, h, q, k⟩ = .error e) := by
  refine ⟨?_, ?_, ?_, ?_, ?_, ?_, ?_, ?_⟩
  · intro variant payload h q k out hok
    obtain ⟨hout, hlen⟩ := loadRawFp32_ok_elim variant payload ⟨1, h, q, k⟩ out hok
    subst hout
    simpa [prodShape] using hlen
  · intro variant payload h q k hne
    unfold loadRawFp32
    dsimp only
    split_ifs with h1 h2
    · exact ⟨_, rfl⟩
    · exact ⟨_, rfl⟩
    · exact absurd (by simpa [prodShape] using h2) hne
  · intro variant payload scales h q k out hok
    obtain ⟨hb, hpl, hsl, hout⟩ :=
      loadInt8PerHead_ok_elim variant payload scales 1 h q k out hok
    subst hout
    rw [length_flatMap_const _ _ (q * k) (fun a _ => by simp)]
    simp [Nat.mul_assoc]
  · intro variant payload scales h q k hne
    unfold loadInt8PerHead
    dsimp only
    split_ifs with hA hB hC hD hE
    all_goals try exact ⟨_, rfl⟩
    all_goals exact absurd (by simpa using hD) hne
  · intro variant payload scales h q k hne
    unfold loadInt8PerHead
    dsimp only
    split_ifs with hA hB hC hD hE
    all_goals try exact ⟨_, rfl⟩
  · intro variant packed scales h q k out hok
    obtain ⟨hb, hpl, hsl, hout⟩ :=
      loadInt4Packed_ok_elim variant packed scales 1 h q k out hok
    subst hout
    rw [length_flatMap_const _ _ (q * k) (fun a _ => by
      rw [length_flatMap_const _ _ k (fun x _ => by simp)]
      simp)]
    simp [Nat.mul_assoc]
  · intro variant packed scales h q k hne
    unfold loadInt4Packed
    dsimp only
    split_ifs with hA hB hC hD
    all_goals try exact ⟨_, rfl⟩
    all_goals exact absurd (by simpa using hC) hne
  · intro variant packed scales h q k hne
    unfold loadInt4Packed
    dsimp only
    split_ifs with hA hB hC hD
    all_goals try exact ⟨_, rfl⟩

/-- Witness for C2: a successful 2-element fp32 decode has length
`1*2*1`, and the empty fp32 payload for shape `[1,1,1,1]` raises. -/
theorem C2_shape_invariant_witness :
    ([(3 : ℚ), 5].length = 1 * 2 * 1)
    ∧ (∃ e, loadRawFp32 ⟨some "w.bin", none, none, none⟩ [] ⟨1, 1, 1, 1⟩ = .error e) := by
  constructor
  · exact C2_shape_invariant.1 ⟨some "w.bin", none, none, none⟩ [3, 5] 1 2 1 [3, 5] (by rfl)
  · exact C2_shape_invariant.2.1 ⟨some "w.bin", none, none, none⟩ [] 1 1 1 (by decide)

/-- C9 counterexample: `loadRawFp32` performs no batch check — a tensor
with batch dimension 2 whose payload length matches `prod(shape)` decodes
successfully instead of raising. -/
theorem C9_counterexample :
    loadRawFp32 ⟨some "w.bin", none, some "float32", some "raw"⟩ [3, 5] ⟨2, 1, 1, 1⟩
      = .ok [3, 5] := by rfl

/-- C9 (amended): the int8 and int4 decoders reject any batch dimension
other than 1; the fp32 decoder performs no batch check and accepts any
batch whose total payload length matches `prod(shape)`. -/
theorem C9_batch_check_amended :
    (∀ (variant : Variant) (payload : List ℤ) (scales : List ℚ) (shape : Shape4),
      shape.b ≠ 1 → ∃ e, loadInt8PerHead variant payload scales shape = .error e)
    ∧ (∀ (variant : Variant) (packed : List ℕ) (scales : List ℚ) (shape : Shape4),
      shape.b ≠ 1 → ∃ e, loadInt4Packed variant packed scales shape = .error e)
    ∧ (∀ (variant : Variant) (payload : List ℚ) (shape : Shape4),
      strFalsy variant.file = false → payload.length = prodShape shape →
      loadRawFp32 variant payload shape = .ok payload) := by
  refine ⟨?_, ?_, ?_⟩
  · intro variant payload scales shape hb
    unfold loadInt8PerHead
    dsimp only
    split_ifs with h1 h2
    · exact ⟨_, rfl⟩
    · exact ⟨_, rfl⟩
    · exact ⟨_, rfl⟩
  · intro variant packed scales shape hb
    unfold loadInt4Packed
    dsimp only
    split_ifs with h1
    · exact ⟨_, rfl⟩
    · exact ⟨_, rfl⟩
  · intro variant payload shape hfile hlen
    unfold loadRawFp32
    dsimp only
    rw [if_neg (by simp [hfile]), if_neg (by simp [hlen])]

/-- Witness for C9 (amended): int8 with batch 2 raises, fp32 with batch 2
and matching length decodes. -/
theorem C9_batch_check_amended_witness :
    (∃ e, loadInt8PerHead ⟨some "q.bin", some "s.bin", none, some "symmetric_per_head"⟩
      [] [] ⟨2, 1, 1, 1⟩ = .error e)
    ∧ loadRawFp32 ⟨some "w2.bin", none, none, none⟩ [7, 9] ⟨2, 1, 1, 1⟩ = .ok [7, 9] := by
  constructor
  · exact C9_batch_check_amended.1 _ [] [] ⟨2, 1, 1, 1⟩ (by decide)
  · exact C9_batch_check_amended.2.2 ⟨some "w2.bin", none, none, none⟩ [7, 9]
      ⟨2, 1, 1, 1⟩ (by rfl) (by rfl)

/-- Witness for C1 at a concrete decode: shape `[1,1,1,2]`, packed byte
`0x1F`, scale 2, output `[-2, 2]`. -/
theorem C1_int4_dequant_law_witness :
    ([(-2 : ℚ), 2].getD 0 0
      = ((int4At [0x1f] 0 : ℤ) : ℚ) * [(2 : ℚ)].getD ((0 / (1 * 2)) * 1 + (0 / 2) % 1) 0)
    ∧ nibbleToSigned 15 = (if 8 ≤ 15 then (15 : ℤ) - 16 else (15 : ℤ)) := by
  constructor
  · refine C1_int4_dequant_law.1 ⟨some "q.bin", some "s.bin", some "int4", none⟩
      [0x1f] [2] ⟨1, 1, 1, 2⟩ [-2, 2] 0 ?_ (by decide)
    have e0 : int4At [31] 0 = -1 := by decide
    have e1 : int4At [31] 1 = 1 := by decide
    simp [loadInt4Packed, strFalsy, List.range_succ]
    norm_num [e0, e1]
  · exact C1_int4_dequant_law.2.2.1 15 (by decide)

/-! Claims about the variant resolver. -/

/-- The normalized precision is always one of the four canonical values. -/
theorem normalizePrecision_cases (v : Option String) :
    normalizePrecision v = "auto" ∨ normalizePrecision v = "fp32"
      ∨ normalizePrecision v = "int8" ∨ normalizePrecision v = "int4" := by
  unfold normalizePrecision
  dsimp only
  split_ifs <;> simp

/-- For an `auto` request, `toVariantKey` only returns a non-empty key that
is present in the variants map. -/
theorem toVariantKey_auto_isSome (scene : SceneJson) :
    toVariantKey "auto" scene = ""
      ∨ (lookupVariant (scene.attn_variants.getD [])
          (toVariantKey "auto" scene)).isSome = true := by
  unfold toVariantKey
  dsimp only
  split_ifs with h1 h2 h3 h4 h5 h6 h7
  · exact absurd h1 (by decide)
  · exact absurd h2 (by decide)
  · exact absurd h3 (by decide)
  · exact Or.inr h4.2
  · exact Or.inr h5
  · exact Or.inr h6
  · exact Or.inr h7
  · exact Or.inl rfl

/-- C10. `normalizePrecision` maps every unrecognized precision string
(anything whose trimmed, lowercased form is outside the seven recognized
spellings, including a missing value) to `auto` without raising, and the
resolver then treats the request exactly as an `auto` request. -/
theorem C10_unknown_precision_maps_to_auto :
    (normalizePrecision none = "auto")
    ∧ (∀ v : Option String,
      rawPrecision v ∉ (["auto", "fp32", "float32", "int8", "int8_phs_v1",
        "int4", "int4_phq_v1"] : List String) →
      normalizePrecision v = "auto")
    ∧ (∀ (scene : SceneJson) (v : Option String),
      normalizePrecision v = "auto" →
      resolveAttentionVariant scene v = resolveAttentionVariant scene (some "auto")) := by
  refine ⟨by decide, ?_, ?_⟩
  · intro v hmem
    simp only [List.mem_cons, List.not_mem_nil, or_false, not_or] at hmem
    obtain ⟨n1, n2, n3, n4, n5, n6, n7⟩ := hmem
    unfold normalizePrecision
    dsimp only
    split_ifs with h1 h2 h3
    · rcases h1 with h | h
      · exact absurd h n2
      · exact absurd h n3
    · rcases h2 with h | h
      · exact absurd h n4
      · exact absurd h n5
    · rcases h3 with h | h
      · exact absurd h n6
      · exact absurd h n7
    · rfl
  · intro scene v hnorm
    unfold resolveAttentionVariant
    rw [hnorm]
    have hauto : normalizePrecision (some "auto") = "auto" := by decide
    rw [hauto]

/-- C4. When the normalized requested precision is `int8` or `int4` and that
specific variant is absent from the manifest (no `attn_variants` map, or no
entry under the canonical key), the resolver throws; when it succeeds, the
resolved key is exactly the canonical key of the request and the variant is
the manifest entry under that key — never a different variant. -/
theorem C4_explicit_request_honored_or_rejected :
    ∀ (scene : SceneJson) (p : Option String) (req canon : String),
      normalizePrecision p = req →
      ((req = "int8" ∧ canon = "int8_phs_v1") ∨ (req = "int4" ∧ canon = "int4_phq_v1")) →
      ((scene.attn_variants.bind (fun vs => lookupVariant vs canon) = none →
        ∃ e, resolveAttentionVariant scene p = .error e)
      ∧ (∀ r : Resolution, resolveAttentionVariant scene p = .ok r →
        r.key = canon
        ∧ scene.attn_variants.bind (fun vs => lookupVariant vs canon) = some r.variant)) := by
  intro scene p req canon hreq hcanon
  have hres : resolveAttentionVariant scene p = resolveAttentionVariantCore scene req := by
    unfold resolveAttentionVariant
    rw [hreq]
  have hkey : toVariantKey req scene = canon := by
    rcases hcanon with ⟨h1, h2⟩ | ⟨h1, h2⟩ <;> subst h1 <;> subst h2 <;> rfl
  have hkne : canon ≠ "" := by
    rcases hcanon with ⟨h1, h2⟩ | ⟨h1, h2⟩ <;> subst h2 <;> decide
  have hup : (req = "int8" ∨ req = "int4") := by
    rcases hcanon with ⟨h1, h2⟩ | ⟨h1, h2⟩ <;> subst h1 <;> simp
  rcases hv : scene.attn_variants with _ | vs
  · refine ⟨fun _ => ?_, fun r hok => ?_⟩
    · rw [hres]
      unfold resolveAttentionVariantCore
      rw [hv]
      rw [if_pos hup]
      exact ⟨_, rfl⟩
    · rw [hres] at hok
      unfold resolveAttentionVariantCore at hok
      rw [hv, if_pos hup] at hok
      exact absurd hok (by simp)
  · rcases hl : lookupVariant vs canon with _ | v
    · refine ⟨fun _ => ?_, fun r hok => ?_⟩
      · rw [hres]
        unfold resolveAttentionVariantCore
        rw [hv]
        dsimp only
        rw [hkey, if_neg hkne, hl, if_pos hup]
        exact ⟨_, rfl⟩
      · rw [hres] at hok
        unfold resolveAttentionVariantCore at hok
        rw [hv] at hok
        dsimp only at hok
        rw [hkey, if_neg hkne, hl, if_pos hup] at hok
        exact absurd hok (by simp)
    · refine ⟨fun habs => ?_, fun r hok => ?_⟩
      · simp only [Option.some_bind] at habs
        rw [habs] at hl
        exact absurd hl (by simp)
      · rw [hres] at hok
        unfold resolveAttentionVariantCore at hok
        rw [hv] at hok
        dsimp only at hok
        rw [hkey, if_neg hkne, hl] at hok
        simp only [Except.ok.injEq] at hok
        subst hok
        exact ⟨rfl, by simpa using hl⟩

/-- Witness for C4: requesting `int8` on a manifest whose variants map holds
only `fp32` raises. -/
theorem C4_explicit_request_honored_or_rejected_witness :
    ∃ e, resolveAttentionVariant
      ⟨some [("fp32", ⟨some "w.bin", none, none, none⟩)], none, none⟩
      (some "int8") = .error e := by
  exact (C4_explicit_request_honored_or_rejected
    ⟨some [("fp32", ⟨some "w.bin", none, none, none⟩)], none, none⟩
    (some "int8") "int8" "int8_phs_v1" (by decide) (Or.inl ⟨rfl, rfl⟩)).1 (by decide)

/-- C5 counterexample: on a manifest with no `attn_variants` map and only
the legacy `attn_weights_file`, an explicit `fp32` request resolves to key
`fp32` — exactly what the literal request demanded — yet `fallbackUsed` is
`true`, and the request was not `auto`. This refutes both the claimed
biconditional and the claim that `fallbackUsed` is only reachable for
`auto` requests. -/
theorem C5_counterexample :
    resolveAttentionVariant ⟨none, some "attn.bin", none⟩ (some "fp32")
      = .ok ⟨"fp32", ⟨some "attn.bin", none, some "float32", some "raw"⟩, true, "fp32"⟩ := by
  decide

/-- C5 (amended). On every successful resolution, `fallbackUsed` is true
exactly when the normalized request was `fp32` and the manifest has no
`fp32` entry in `attn_variants` (including the case of no variants map at
all), i.e. exactly when an explicit `fp32` request was served by the
legacy file; in particular it is never true for an `auto` request. And
requesting `auto` on a manifest whose variants map holds only `fp32`
returns `{key := "fp32", fallbackUsed := false}`. -/
theorem C5_fallback_flag_amended :
    (∀ (scene : SceneJson) (p : Option String) (r : Resolution),
      resolveAttentionVariant scene p = .ok r →
      (r.fallbackUsed = true ↔
        (normalizePrecision p = "fp32"
          ∧ scene.attn_variants.bind (fun vs => lookupVariant vs "fp32") = none)))
    ∧ (∀ (md : Option Metadata) (legacy : Option String) (v : Variant),
      resolveAttentionVariant ⟨some [("fp32", v)], legacy, md⟩ (some "auto")
        = .ok ⟨"fp32", v, false, "auto"⟩) := by
  constructor
  · intro scene p r hok
    unfold resolveAttentionVariant at hok
    rcases normalizePrecision_cases p with hreq | hreq | hreq | hreq <;>
      rw [hreq] at hok ⊢ <;>
      unfold resolveAttentionVariantCore at hok
    · -- requested = auto : fallbackUsed is false on every success path
      rcases hv : scene.attn_variants with _ | vs
      · rw [hv] at hok
        rw [if_neg (by decide)] at hok
        rcases hleg : buildLegacyFp32Variant scene with _ | l
        · rw [hleg] at hok
          exact absurd hok (by simp)
        · rw [hleg] at hok
          simp only [Except.ok.injEq] at hok
          subst hok
          simp
      · rw [hv] at hok
        dsimp only at hok
        by_cases hk : toVariantKey "auto" scene = ""
        · rw [if_pos hk] at hok
          rcases hleg : buildLegacyFp32Variant scene with _ | l
          · rw [hleg] at hok
            exact absurd hok (by simp)
          · rw [hleg] at hok
            simp only [Except.ok.injEq] at hok
            subst hok
            simp
        · rw [if_neg hk] at hok
          rcases hl : lookupVariant vs (toVariantKey "auto" scene) with _ | v
          · rcases toVariantKey_auto_isSome scene with h | h
            · exact absurd h hk
            · rw [hv] at h
              simp only [Option.getD_some] at h
              rw [hl] at h
              exact absurd h (by simp)
          · rw [hl] at hok
            simp only [Except.ok.injEq] at hok
            subst hok
            simp
    · -- requested = fp32 : fallbackUsed is true iff no fp32 variant entry
      have hkey : toVariantKey "fp32" scene = "fp32" := rfl
      rcases hv : scene.attn_variants with _ | vs
      · rw [hv] at hok
        rw [if_neg (by decide)] at hok
        rcases hleg : buildLegacyFp32Variant scene with _ | l
        · rw [hleg] at hok
          exact absurd hok (by simp)
        · rw [hleg] at hok
          simp only [Except.ok.injEq] at hok
          subst hok
          simp
      · rw [hv] at hok
        dsimp only at hok
        rw [hkey] at hok
        rw [if_neg (by decide)] at hok
        rcases hl : lookupVariant vs "fp32" with _ | v
        · rw [hl] at hok
          rw [if_neg (by decide)] at hok
          dsimp only [Option.orElse] at hok
          rcases hleg : buildLegacyFp32Variant scene with _ | l <;> rw [hleg] at hok
          · exact absurd hok (by simp)
          · simp only [Except.ok.injEq] at hok
            subst hok
            simp [hl]
        · rw [hl] at hok
          simp only [Except.ok.injEq] at hok
          subst hok
          simp [hl]
    · -- requested = int8 : explicit requests never set fallbackUsed
      rcases hv : scene.attn_variants with _ | vs
      · rw [hv] at hok
        rw [if_pos (by decide)] at hok
        exact absurd hok (by simp)
      · rw [hv] at hok
        dsimp only at hok
        rw [show toVariantKey "int8" scene = "int8_phs_v1" from rfl] at hok
        rw [if_neg (by decide)] at hok
        rcases hl : lookupVariant vs "int8_phs_v1" with _ | v
        · rw [hl] at hok
          rw [if_pos (by decide)] at hok
          exact absurd hok (by simp)
        · rw [hl] at hok
          simp only [Except.ok.injEq] at hok
          subst hok
          simp
    · -- requested = int4
      rcases hv : scene.attn_variants with _ | vs
      · rw [hv] at hok
        rw [if_pos (by decide)] at hok
        exact absurd hok (by simp)
      · rw [hv] at hok
        dsimp only at hok
        rw [show toVariantKey "int4" scene = "int4_phq_v1" from rfl] at hok
        rw [if_neg (by decide)] at hok
        rcases hl : lookupVariant vs "int4_phq_v1" with _ | v
        · rw [hl] at hok
          rw [if_pos (by decide)] at hok
          exact absurd hok (by simp)
        · rw [hl] at hok
          simp only [Except.ok.injEq] at hok
          subst hok
          simp
  · intro md legacy v
    have hauto : normalizePrecision (some "auto") = "auto" := by decide
    unfold resolveAttentionVariant
    rw [hauto]
    unfold resolveAttentionVariantCore
    dsimp only
    have hk : toVariantKey "auto" ⟨some [("fp32", v)], legacy, md⟩ = "fp32" := by
      unfold toVariantKey
      dsimp only
      rw [if_neg (by decide), if_neg (by decide), if_neg (by decide)]
      rcases md with _ | m
      · simp [lookupVariant, List.find?]
      · rcases m with ⟨pd⟩
        rcases pd with _ | pref
        · simp [lookupVariant, List.find?]
        · by_cases hp : pref = "fp32"
          · subst hp
            simp [lookupVariant, List.find?]
          · have hp2 : ¬("fp32" = pref) := fun hcd => hp hcd.symm
            by_cases hemp : pref = ""
            · subst hemp
              simp [lookupVariant, List.find?]
            · simp [lookupVariant, List.find?, hemp, hp2]
    rw [hk]
    rw [if_neg (by decide)]
    have hl : lookupVariant [("fp32", v)] "fp32" = some v := by
      simp [lookupVariant, List.find?]
    rw [hl]
    rfl

/-- Witness for C5 (amended) at the legacy-only manifest: the biconditional
instantiated at the concrete resolution of an explicit `fp32` request. -/
theorem C5_fallback_flag_amended_witness :
    (⟨"fp32", ⟨some "attn.bin", none, some "float32", some "raw"⟩, true, "fp32"⟩
        : Resolution).fallbackUsed = true
      ↔ (normalizePrecision (some "fp32") = "fp32"
        ∧ (⟨none, some "attn.bin", none⟩ : SceneJson).attn_variants.bind
            (fun vs => lookupVariant vs "fp32") = none) := by
  exact C5_fallback_flag_amended.1 ⟨none, some "attn.bin", none⟩ (some "fp32") _ (by decide)

/-- Witness for C10: the misspelled request `int88` normalizes to `auto` and
resolves exactly like `auto`. -/
theorem C10_unknown_precision_maps_to_auto_witness :
    normalizePrecision (some "int88") = "auto"
    ∧ resolveAttentionVariant ⟨none, some "w.bin", none⟩ (some "int88")
        = resolveAttentionVariant ⟨none, some "w.bin", none⟩ (some "auto") := by
  refine ⟨C10_unknown_precision_maps_to_auto.2.1 (some "int88") (by decide), ?_⟩
  exact C10_unknown_precision_maps_to_auto.2.2 ⟨none, some "w.bin", none⟩ (some "int88")
    (C10_unknown_precision_maps_to_auto.2.1 (some "int88") (by decide))


/-! Claims about the query engine. -/

/-- C3 counterexample: an empty `patchIndices` list with aggregation `sum`
does not raise — the engine returns the zero-filled `gridSize × gridSize`
map (here 2×2 on a `[1,1,4,1]` tensor). -/
theorem C3_counterexample :
    getInverseAttention [1, 2, 3, 4] ⟨1, 1, 4, 1⟩ 2 [] true none "sum"
      = .ok [[0, 0], [0, 0]] := by
  decide

/-- C3 (amended). `getInverseAttention` performs no emptiness check on
`patchIndices`: with an empty selection and aggregation `sum` it returns
the zero-filled `gridSize × gridSize` BEV map instead of raising. -/
theorem C3_empty_selection_amended :
    ∀ (flat : List ℚ) (shape : Shape4) (gridSize : ℕ),
      getInverseAttention flat shape gridSize [] true none "sum"
        = .ok ((List.range gridSize).map (fun _ =>
            (List.range gridSize).map (fun _ => (0 : ℚ)))) := by
  intro flat shape g
  show Except.ok ((List.range g).map fun y => (List.range g).map fun x =>
      ((((List.range (g * g)).map (fun _ => ([] : List ℚ))).map
        (fun qAttn => qAttn.foldl (fun s v => s + v) 0)).getD (y * g + x) 0)) = _
  rw [List.map_map]
  have hzero : ((fun qAttn => List.foldl (fun s v => s + v) 0 qAttn)
      ∘ (fun _ => ([] : List ℚ))) = (fun _ : ℕ => (0 : ℚ)) := rfl
  rw [hzero]
  congr 1
  apply List.map_congr_left
  intro y hy
  apply List.map_congr_left
  intro x hx
  by_cases h : y * g + x < g * g
  · exact getD_map_range _ _ _ _ h
  · rw [List.getD_eq_default]
    simpa using Nat.not_lt.mp h

/-- C8. The forward query and the single-key inverse query read the same
underlying flat-tensor value: for every tensor, camera record, query
`q < gridSize²` and patch offset `i < nPatches`, the entry of
`getCameraPatchAttentionForQuery q cam (meanHeads)` at `i` equals the BEV
cell `(q / gridSize, q % gridSize)` of
`getInverseAttention [cam.startIdx + i] (meanHeads, sum)`. -/
theorem C8_inverse_forward_symmetry :
    ∀ (flat : List ℚ) (shape : Shape4) (gridSize : ℕ) (info : PatchInfo)
      (q i : ℕ), q < gridSize * gridSize → i < info.nPatches →
      ∃ (grid : List (List ℚ)) (out : List ℚ),
        getInverseAttention flat shape gridSize [info.startIdx + i] true none "sum"
          = .ok grid
        ∧ getCameraPatchAttentionForQuery flat shape q info true none = .ok out
        ∧ (grid.getD (q / gridSize) []).getD (q % gridSize) 0 = out.getD i 0 := by
  intro flat shape g info q i hq hi
  refine ⟨_, _, rfl, rfl, ?_⟩
  have hg0 : 0 < g := by
    rcases Nat.eq_zero_or_pos g with h | h
    · subst h
      simp at hq
    · exact h
  have hyg : q / g < g := (Nat.div_lt_iff_lt_mul hg0).mpr hq
  have hxg : q % g < g := Nat.mod_lt _ hg0
  rw [getD_map_range g _ (q / g) [] hyg, getD_map_range g _ (q % g) 0 hxg]
  have hqq : q / g * g + q % g = q := by
    rw [mul_comm (q / g) g]
    exact Nat.div_add_mod q g
  rw [hqq, List.map_map]
  rw [getD_map_range (g * g) _ q 0 hq, getD_map_range info.nPatches _ i 0 hi]
  show List.foldl (fun s v => s + v) 0 [headMeanAt flat shape q (info.startIdx + i)] = _
  simp

/-- Witness for C8 at a concrete tensor: shape `[1,1,1,2]`, values `[1,2]`,
a one-cell grid and a two-patch camera starting at key 0. -/
theorem C8_inverse_forward_symmetry_witness :
    ∃ (grid : List (List ℚ)) (out : List ℚ),
      getInverseAttention [1, 2] ⟨1, 1, 1, 2⟩ 1
          [(⟨"cam", 0, 0, 2, 1, 2, 14, 28, 1, 1⟩ : PatchInfo).startIdx + 1]
          true none "sum" = .ok grid
      ∧ getCameraPatchAttentionForQuery [1, 2] ⟨1, 1, 1, 2⟩ 0
          ⟨"cam", 0, 0, 2, 1, 2, 14, 28, 1, 1⟩ true none = .ok out
      ∧ (grid.getD (0 / 1) []).getD (0 % 1) 0 = out.getD 1 0 := by
  exact C8_inverse_forward_symmetry [1, 2] ⟨1, 1, 1, 2⟩ 1
    ⟨"cam", 0, 0, 2, 1, 2, 14, 28, 1, 1⟩ 0 1 (by decide) (by decide)
